import Mathlib

/-!
Shallow embedding of `src/organizer.py` (file-organizer): a CLI core that
scans an input directory, hashes each file with SHA-256, resolves a
destination folder per organization strategy, disambiguates name
collisions, applies a dedupe policy, performs the copy/move, and builds a
report.  Machine integers are modelled as `Nat` with explicit `% 2^32`
where the hash arithmetic overflows; paths are lists of components;
the filesystem is an explicit state threaded through the engine; fallible
I/O returns `Except`.
-/

namespace Organizer

/-! ## SHA-256 (semantics of `hashlib.sha256`, used by `sha256` in the source) -/

/-- Reduce modulo 2^32, the word size of SHA-256 arithmetic. -/
def w32 (x : Nat) : Nat := x % 4294967296

/-- Rotate a 32-bit word right by `n`. -/
def rotr32 (x n : Nat) : Nat := w32 ((x >>> n) ||| (x <<< (32 - n)))

/-- Round constants K of SHA-256. -/
def shaK : List Nat :=
  [1116352408, 1899447441, 3049323471, 3921009573, 961987163,
   1508970993, 2453635748, 2870763221, 3624381080, 310598401,
   607225278, 1426881987, 1925078388, 2162078206, 2614888103,
   3248222580, 3835390401, 4022224774, 264347078, 604807628,
   770255983, 1249150122, 1555081692, 1996064986, 2554220882,
   2821834349, 2952996808, 3210313671, 3336571891, 3584528711,
   113926993, 338241895, 666307205, 773529912, 1294757372,
   1396182291, 1695183700, 1986661051, 2177026350, 2456956037,
   2730485921, 2820302411, 3259730800, 3345764771, 3516065817,
   3600352804, 4094571909, 275423344, 430227734, 506948616,
   659060556, 883997877, 958139571, 1322822218, 1537002063,
   1747873779, 1955562222, 2024104815, 2227730452, 2361852424,
   2428436474, 2756734187, 3204031479, 3329325298]

/-- Initial hash state of SHA-256. -/
def shaH0 : List Nat :=
  [1779033703, 3144134277, 1013904242, 2773480762,
   1359893119, 2600822924, 528734635, 1541459225]

/-- Big sigma-0 of the SHA-256 compression function. -/
def bigSigma0 (x : Nat) : Nat := (rotr32 x 2) ^^^ (rotr32 x 13) ^^^ (rotr32 x 22)

/-- Big sigma-1 of the SHA-256 compression function. -/
def bigSigma1 (x : Nat) : Nat := (rotr32 x 6) ^^^ (rotr32 x 11) ^^^ (rotr32 x 25)

/-- Small sigma-0 of the SHA-256 message schedule. -/
def smallSigma0 (x : Nat) : Nat := (rotr32 x 7) ^^^ (rotr32 x 18) ^^^ (x >>> 3)

/-- Small sigma-1 of the SHA-256 message schedule. -/
def smallSigma1 (x : Nat) : Nat := (rotr32 x 17) ^^^ (rotr32 x 19) ^^^ (x >>> 10)

/-- Choice function of SHA-256. -/
def chF (x y z : Nat) : Nat := (x &&& y) ^^^ ((x ^^^ 4294967295) &&& z)

/-- Majority function of SHA-256. -/
def majF (x y z : Nat) : Nat := (x &&& y) ^^^ (x &&& z) ^^^ (y &&& z)

/-- Big-endian byte rendering of a number, `k` bytes wide. -/
def beBytes : Nat → Nat → List Nat
  | 0, _ => []
  | k + 1, n => beBytes k (n / 256) ++ [n % 256]

/-- Group a byte list into big-endian 32-bit words. -/
def bytesToWords : List Nat → List Nat
  | b0 :: b1 :: b2 :: b3 :: rest =>
    (((b0 * 256 + b1) * 256 + b2) * 256 + b3) :: bytesToWords rest
  | _ => []

/-- Extend the 16-word schedule, one word per step of fuel. -/
def extendW : Nat → List Nat → List Nat
  | 0, w => w
  | fuel + 1, w =>
    let i := w.length
    let x := w32 ((w.getD (i - 16) 0) + smallSigma0 (w.getD (i - 15) 0) +
                  (w.getD (i - 7) 0) + smallSigma1 (w.getD (i - 2) 0))
    extendW fuel (w ++ [x])

/-- Working registers of the SHA-256 compression loop. -/
structure Regs where
  a : Nat
  b : Nat
  c : Nat
  d : Nat
  e : Nat
  f : Nat
  g : Nat
  h : Nat
deriving DecidableEq

/-- One round of the SHA-256 compression loop; `wk` is the (schedule word, K constant) pair. -/
def compressStep (r : Regs) (wk : Nat × Nat) : Regs :=
  let t1 := w32 (r.h + bigSigma1 r.e + chF r.e r.f r.g + wk.2 + wk.1)
  let t2 := w32 (bigSigma0 r.a + majF r.a r.b r.c)
  ⟨w32 (t1 + t2), r.a, r.b, r.c, w32 (r.d + t1), r.e, r.f, r.g⟩

/-- Compress one 64-byte block into the running hash state. -/
def compressBlock (hs : List Nat) (block : List Nat) : List Nat :=
  let w := extendW 48 (bytesToWords block)
  let r0 : Regs := ⟨hs.getD 0 0, hs.getD 1 0, hs.getD 2 0, hs.getD 3 0,
                    hs.getD 4 0, hs.getD 5 0, hs.getD 6 0, hs.getD 7 0⟩
  let r := (w.zip shaK).foldl compressStep r0
  [w32 (hs.getD 0 0 + r.a), w32 (hs.getD 1 0 + r.b), w32 (hs.getD 2 0 + r.c),
   w32 (hs.getD 3 0 + r.d), w32 (hs.getD 4 0 + r.e), w32 (hs.getD 5 0 + r.f),
   w32 (hs.getD 6 0 + r.g), w32 (hs.getD 7 0 + r.h)]

/-- SHA-256 message padding: 0x80, zeros, then the 64-bit bit length. -/
def shaPad (msg : List Nat) : List Nat :=
  msg ++ [128] ++ List.replicate ((64 - ((msg.length + 9) % 64)) % 64) 0 ++
    beBytes 8 (msg.length * 8)

/-- Split a list into chunks of `k` elements (the last chunk may be shorter). -/
def chunksOfAux (k : Nat) : Nat → List Nat → List (List Nat)
  | 0, _ => []
  | _, [] => []
  | fuel + 1, l => l.take k :: chunksOfAux k fuel (l.drop k)

/-- Split a byte list into chunks of `k` bytes, as successive bounded reads do. -/
def chunksOf (k : Nat) (l : List Nat) : List (List Nat) := chunksOfAux k l.length l

/-- Full SHA-256 over a byte sequence, as the eight 32-bit words of the digest. -/
def sha256core (msg : List Nat) : List Nat :=
  (chunksOf 64 (shaPad msg)).foldl compressBlock shaH0

/-- Lowercase hex rendering of one byte. -/
def byteHex (b : Nat) : List Char := [Nat.digitChar (b / 16), Nat.digitChar (b % 16)]

/-- Lowercase hex digest of a byte sequence, as `hashlib`'s `hexdigest` renders it. -/
def sha256hex (msg : List Nat) : String :=
  List.asString ((((sha256core msg).map (beBytes 4)).flatten).map byteHex).flatten

/-- Streaming hash object: per the `hashlib` contract, a sequence of `update`
calls is equivalent to a single `update` of the concatenation, so the
observable state is the accumulated byte sequence. -/
structure HashObj where
  data : List Nat
deriving DecidableEq

/-- Feed one chunk to the hash object (`h.update(chunk)`). -/
def HashObj.update (h : HashObj) (chunk : List Nat) : HashObj := ⟨h.data ++ chunk⟩

/-- Finalize the hash object (`h.hexdigest()`). -/
def HashObj.hexdigest (h : HashObj) : String := sha256hex h.data

/-- Read size used by `sha256` in the source: 8 MiB. -/
def CHUNK : Nat := 8388608

/-- Fold the streaming hash over a list of chunks, then finalize. -/
def sha256stream (chunks : List (List Nat)) : String :=
  (chunks.foldl HashObj.update ⟨[]⟩).hexdigest

/-- Digest of a file's content as `sha256` computes it: successive reads of
at most `CHUNK` bytes, each fed to the hash object, then `hexdigest`. -/
def sha256bytes (content : List Nat) : String := sha256stream (chunksOf CHUNK content)

/-! ## Paths and Python `pathlib` name helpers -/

/-- Absolute paths, as the list of components below the filesystem root. -/
abbrev Path := List String

/-- Render a path the way `str(Path(...))` does for an absolute path. -/
def pathStr (p : Path) : String := String.intercalate "/" ("" :: p)

/-- Index of the rightmost dot in a character list, if any. -/
def lastDotIdx : List Char → Option Nat
  | [] => none
  | c :: cs =>
    match lastDotIdx cs with
    | some i => some (i + 1)
    | none => if c = '.' then some 0 else none

/-- The extension of a file name, dot included, as `PurePath.suffix` computes
it: the part from the rightmost dot, provided that dot is neither the first
nor the last character; otherwise the empty string. -/
def pySuffix (name : String) : String :=
  match lastDotIdx name.data with
  | some i => if 0 < i ∧ i < name.data.length - 1 then ⟨name.data.drop i⟩ else ""
  | none => ""

/-- The file name without its extension, as `PurePath.stem` computes it. -/
def pyStem (name : String) : String :=
  match lastDotIdx name.data with
  | some i => if 0 < i ∧ i < name.data.length - 1 then ⟨name.data.take i⟩ else name
  | none => name

/-- Extension folder for a file name: the suffix with leading dots stripped,
lowercased, or the literal `no_ext` when that leaves nothing
(`_ext_folder` in the source). -/
def ext_folder (name : String) : String :=
  let e := ((pySuffix name).data.dropWhile (fun c => c = '.')).map Char.toLower
  if e.isEmpty then "no_ext" else ⟨e⟩

/-- Civil (year, month) in the proleptic Gregorian calendar for a count of
days since 1970-01-01, by the standard era-based conversion. -/
def civilFromDays (days : Nat) : Nat × Nat :=
  let z := days + 719468
  let era := z / 146097
  let doe := z % 146097
  let yoe := (doe - doe / 1460 + doe / 36524 - doe / 146096) / 365
  let doy := doe - (365 * yoe + yoe / 4 - yoe / 100)
  let mp := (5 * doy + 2) / 153
  let m := if mp < 10 then mp + 3 else mp - 9
  (if m ≤ 2 then yoe + era * 400 + 1 else yoe + era * 400, m)

/-- Zero-padded two-digit rendering of a month number. -/
def pad2 (n : Nat) : String := if n < 10 then "0" ++ Nat.repr n else Nat.repr n

/-- Date folder `YYYY-MM` for a modification time in seconds since the epoch,
interpreted in UTC (`_date_folder` in the source). -/
def date_folder (mtime : Nat) : String :=
  let ym := civilFromDays (mtime / 86400)
  Nat.repr ym.1 ++ "-" ++ pad2 ym.2

/-! ## Filesystem model -/

/-- Regular-file payload plus fault injection describing how the external
world may fail on this file: `readFault` makes opening/reading it raise
(hashing fails); `copyFault = some none` makes a copy of it raise before
writing anything; `copyFault = some (some bytes)` makes the copy raise
after writing `bytes` to the destination (half-written file, as a
disk-full `shutil.copy2` leaves behind); `moveFault` makes a rename of it
raise without mutation. -/
structure FileData where
  content : List Nat
  mtime : Nat
  readFault : Bool := false
  copyFault : Option (Option (List Nat)) := none
  moveFault : Bool := false
deriving DecidableEq

/-- Filesystem state: regular files with payloads, plus directories that
were explicitly created (directories implied by a file's path need no
entry; existence checks look through both). -/
structure FS where
  files : List (Path × FileData)
  dirs : List Path
deriving DecidableEq

/-- Look up the regular file at `p`. -/
def FS.lookupFile (fs : FS) (p : Path) : Option FileData :=
  (fs.files.find? (fun e => e.1 == p)).map Prod.snd

/-- Existence check (`Path.exists`): `p` is a file, an explicitly created
directory, or an ancestor of either. -/
def pathExists (fs : FS) (p : Path) : Bool :=
  fs.files.any (fun e => p.isPrefixOf e.1) || fs.dirs.any (fun d => p.isPrefixOf d)

/-- Write payload `fd` at file path `p`, replacing any previous file there. -/
def FS.setFile (fs : FS) (p : Path) (fd : FileData) : FS :=
  { fs with files := fs.files.filter (fun e => ¬(e.1 = p)) ++ [(p, fd)] }

/-- Remove the regular file at `p`. -/
def FS.removeFile (fs : FS) (p : Path) : FS :=
  { fs with files := fs.files.filter (fun e => ¬(e.1 = p)) }

/-- Create directory `d` with all intermediate directories
(`mkdir(parents=True, exist_ok=True)`): idempotent, never fails. -/
def mkdirP (fs : FS) (d : Path) : FS :=
  if fs.dirs.contains d then fs else { fs with dirs := fs.dirs ++ [d] }

/-- Recursively delete everything at or below `root` (`shutil.rmtree`). -/
def rmtree (fs : FS) (root : Path) : FS :=
  { files := fs.files.filter (fun e => ¬(root.isPrefixOf e.1 = true)),
    dirs := fs.dirs.filter (fun d => ¬(root.isPrefixOf d = true)) }

/-- Hash the file at `p` the way `sha256` in the source does: open, read in
`CHUNK`-byte pieces feeding the hash object, finalize.  Raises when the
file is absent or unreadable. -/
def sha256 (fs : FS) (p : Path) : Except String String :=
  match fs.lookupFile p with
  | none => .error ("No such file: " ++ pathStr p)
  | some fd =>
    if fd.readFault then .error ("Read error: " ++ pathStr p)
    else .ok (sha256bytes fd.content)

/-- Relocate the file at `src` to `dst` (`shutil.move`, same-device rename):
atomic, fails without mutation when the source is absent or faulted. -/
def moveFs (fs : FS) (src dst : Path) : Except String FS :=
  match fs.lookupFile src with
  | none => .error ("No such file: " ++ pathStr src)
  | some fd =>
    if fd.moveFault then .error ("Move error: " ++ pathStr src)
    else .ok ((fs.removeFile src).setFile dst fd)

/-- Copy content and metadata of `src` to `dst` (`shutil.copy2`): preserves
the modification time; on a fault it raises, and may leave a half-written
destination file behind (carried in the error alongside the message). -/
def copy2fs (fs : FS) (src dst : Path) : Except (String × FS) FS :=
  match fs.lookupFile src with
  | none => .error ("No such file: " ++ pathStr src, fs)
  | some fd =>
    match fd.copyFault with
    | some none => .error ("Copy error: " ++ pathStr src, fs)
    | some (some half) =>
      .error ("Copy error: " ++ pathStr src, fs.setFile dst ⟨half, 0, false, none, false⟩)
    | none => .ok (fs.setFile dst ⟨fd.content, fd.mtime, false, none, false⟩)

/-- Delete the file at `p` (`Path.unlink`). -/
def unlinkFs (fs : FS) (p : Path) : Except String FS :=
  match fs.lookupFile p with
  | none => .error ("No such file: " ++ pathStr p)
  | some _ => .ok (fs.removeFile p)

/-! ## Destination helpers (`dest_for`, `safe_dest`) and the scanner -/

/-- Resolve the destination for `p` under strategy `by_` (`dest_for` in the
source).  The extension folder and date folder are both computed up front,
so the stat of the modification time happens for every strategy; an
unknown strategy raises `ValueError`. -/
def dest_for (fs : FS) (p : Path) (output : Path) (by_ : String) : Except String Path :=
  let name := p.getLastD ""
  let ext := ext_folder name
  match fs.lookupFile p with
  | none => .error ("No such file: " ++ pathStr p)
  | some fd =>
    let date := date_folder fd.mtime
    if by_ = "type" then .ok (output ++ [ext, name])
    else if by_ = "date" then .ok (output ++ [date, name])
    else if by_ = "type-date" then .ok (output ++ [ext, date, name])
    else .error ("Unknown --by value: " ++ by_)

/-- Candidate path probed at counter `n`: the counter is inserted between
stem and extension of the final component. -/
def candPath (parent : Path) (stem ext : String) (n : Nat) : Path :=
  parent ++ [stem ++ "_" ++ Nat.repr n ++ ext]

/-- Probe counters upward from `n` until a candidate does not exist, with
explicit fuel (the source loops unboundedly; fuel `fsSize + 1` always
suffices, see `safeDestGo_finds`). -/
def safeDestGo (fs : FS) (parent : Path) (stem ext : String) : Nat → Nat → Path
  | 0, n => candPath parent stem ext n
  | fuel + 1, n =>
    if pathExists fs (candPath parent stem ext n) then
      safeDestGo fs parent stem ext fuel (n + 1)
    else candPath parent stem ext n

/-- Number of filesystem entries, a bound on how many candidates can exist. -/
def fsSize (fs : FS) : Nat := fs.files.length + fs.dirs.length

/-- Collision resolver (`safe_dest` in the source): return `dest` if unused,
else append `_1`, `_2`, … before the extension until a name is unused. -/
def safe_dest (fs : FS) (dest : Path) : Path :=
  if pathExists fs dest then
    safeDestGo fs dest.dropLast (pyStem (dest.getLastD "")) (pySuffix (dest.getLastD ""))
      (fsSize fs + 1) 1
  else dest

/-- Lexicographic comparison of character lists by code point, the order
Python uses on strings. -/
def strLeB : List Char → List Char → Bool
  | [], _ => true
  | _ :: _, [] => false
  | c :: cs, d :: ds =>
    if c.toNat < d.toNat then true
    else if d.toNat < c.toNat then false
    else strLeB cs ds

/-- String comparison by code points (`s <= t` on Python strings). -/
def strLe (s t : String) : Bool := strLeB s.data t.data

/-- Whether the final component starts with the hidden-file marker
(`p.name.startswith "."` — the check looks only at the file's own name). -/
def hiddenName (p : Path) : Bool :=
  match (p.getLastD "").data with
  | c :: _ => c = '.'
  | [] => false

/-- Whether `glob` with pattern `**/*` (recursive) or `*` (flat) under
`dir` yields `p`. -/
def globMatch (dir : Path) (recursive : Bool) (p : Path) : Bool :=
  dir.isPrefixOf p &&
    (if recursive then dir.length < p.length else p.length = dir.length + 1)

/-- Batch scanner (`collect_files` in the source): the regular files matched
by the glob whose name does not start with a dot, sorted by full path
(Python's `sorted` is a stable sort; on the distinct keys produced here any
stable sort by the path string agrees with it). -/
def collect_files (fs : FS) (input_dir : Path) (recursive : Bool) : List Path :=
  List.insertionSort (fun p q => strLe (pathStr p) (pathStr q) = true)
    ((fs.files.map Prod.fst).filter
      (fun p => globMatch input_dir recursive p && !hiddenName p))

/-! ## Organize engine -/

/-- Settings of one run, as the CLI hands them to `organize`. -/
structure Config where
  input : Path
  output : Path
  by_ : String
  recursive : Bool
  dedupe : String
  dry_run : Bool
  move : Bool
  clean_output : Bool
deriving DecidableEq

/-- One per-file outcome appended to the report's `files` list. -/
structure ActionRecord where
  source : Path
  dest : Option Path
  action : String
  reason : Option String
  hash : String
deriving DecidableEq

/-- One per-file failure appended to the report's `errors` list. -/
structure ErrorRecord where
  source : Path
  error : String
deriving DecidableEq

/-- Aggregate counters of one run. -/
structure Totals where
  scanned_files : Nat
  copied : Nat
  moved : Nat
  skipped_duplicates : Nat
  duplicates_moved : Nat
  errors : Nat
deriving DecidableEq

/-- Mutable state of the engine while the per-file loop runs. -/
structure OrgState where
  fs : FS
  seen : List (String × Path)
  actions : List ActionRecord
  errors : List ErrorRecord
  folders : List String
  totals : Totals
deriving DecidableEq

/-- Record a caught per-file exception: append an `ErrorRecord` and bump
`totals.errors`; everything else, the filesystem included, stays as the
failing file left it. -/
def recError (st : OrgState) (src : Path) (msg : String) : OrgState :=
  { st with errors := st.errors ++ [⟨src, msg⟩],
            totals := { st.totals with errors := st.totals.errors + 1 } }

/-- Record a silently skipped duplicate, reason referencing the first
occurrence of the hash. -/
def recSkip (st : OrgState) (src firstSrc : Path) (fileHash : String) : OrgState :=
  { st with
      actions := st.actions ++
        [⟨src, none, "skipped", some ("duplicate of " ++ pathStr firstSrc), fileHash⟩],
      totals := { st.totals with skipped_duplicates := st.totals.skipped_duplicates + 1 } }

/-- Record a completed action and bump the counter its label selects. -/
def recDone (st : OrgState) (src dest : Path) (label fileHash : String) : OrgState :=
  { st with
      actions := st.actions ++ [⟨src, some dest, label, none, fileHash⟩],
      totals :=
        if label = "duplicate_moved" then
          { st.totals with duplicates_moved := st.totals.duplicates_moved + 1 }
        else if label = "move" then { st.totals with moved := st.totals.moved + 1 }
        else { st.totals with copied := st.totals.copied + 1 } }

/-- Add a parent folder to the `folders_created` set (insertion ordered). -/
def addFolder (st : OrgState) (dir : String) : OrgState :=
  { st with folders := if st.folders.contains dir then st.folders else st.folders ++ [dir] }

/-- Choose destination and action label for `src` (lines 121–126 of the
source): a known duplicate under policy `move` goes below `Duplicates`,
everything else through `dest_for`; both are then disambiguated against
the current filesystem. -/
def destChoice (cfg : Config) (st : OrgState) (src : Path) (isDup : Bool) :
    Except String (Path × String) :=
  if isDup ∧ cfg.dedupe = "move" then
    .ok (safe_dest st.fs (cfg.output ++ ["Duplicates", src.getLastD ""]), "duplicate_moved")
  else
    match dest_for st.fs src cfg.output cfg.by_ with
    | .error m => .error m
    | .ok d => .ok (safe_dest st.fs d, if cfg.move then "move" else "copy")

/-- Perform the filesystem action (lines 128–153 of the source): create the
parent directory, then either rename, or copy — duplicates are always
copied, with the source additionally unlinked only when move mode is on —
then record the action.  In a dry run nothing touches the filesystem. -/
def doAction (cfg : Config) (st : OrgState) (src dest : Path) (label fileHash : String) :
    OrgState :=
  if cfg.dry_run then recDone st src dest label fileHash
  else
    let st1 : OrgState := { st with fs := mkdirP st.fs dest.dropLast }
    if cfg.move ∧ ¬(label = "duplicate_moved") then
      match moveFs st1.fs src dest with
      | .error m => recError st1 src m
      | .ok fs2 => recDone { st1 with fs := fs2 } src dest label fileHash
    else
      match copy2fs st1.fs src dest with
      | .error em => recError { st1 with fs := em.2 } src em.1
      | .ok fs2 =>
        if label = "duplicate_moved" ∧ cfg.move then
          match unlinkFs fs2 src with
          | .error m => recError { st1 with fs := fs2 } src m
          | .ok fs3 => recDone { st1 with fs := fs3 } src dest label fileHash
        else recDone { st1 with fs := fs2 } src dest label fileHash

/-- Process one scanned file (the body of the `for src in files` loop):
hash, register the hash if fresh, branch on duplicate status and policy,
act, record.  Any raised step is caught here and recorded as an error. -/
def processFile (cfg : Config) (st : OrgState) (src : Path) : OrgState :=
  match sha256 st.fs src with
  | .error m => recError st src m
  | .ok fileHash =>
    match st.seen.lookup fileHash with
    | some firstSrc =>
      if cfg.dedupe = "delete" then recSkip st src firstSrc fileHash
      else
        match destChoice cfg st src true with
        | .error m => recError st src m
        | .ok dl => doAction cfg (addFolder st (pathStr dl.1.dropLast)) src dl.1 dl.2 fileHash
    | none =>
      let st1 : OrgState := { st with seen := st.seen ++ [(fileHash, src)] }
      match destChoice cfg st1 src false with
      | .error m => recError st1 src m
      | .ok dl => doAction cfg (addFolder st1 (pathStr dl.1.dropLast)) src dl.1 dl.2 fileHash

/-- Top-level folder of a destination relative to the output root, `other`
when the destination is not strictly below the root. -/
def topFolder (output : Path) (dest : Path) : String :=
  if output.isPrefixOf dest ∧ output.length < dest.length then dest.getD output.length "other"
  else "other"

/-- Bump the count of key `k` in an insertion-ordered association list. -/
def bump (l : List (String × Nat)) (k : String) : List (String × Nat) :=
  match l with
  | [] => [(k, 1)]
  | (k', n) :: rest => if k' = k then (k', n + 1) :: rest else (k', n) :: bump rest k

/-- Count actions per top-level output folder, skipping records without a
destination (lines 159–169 of the source). -/
def folderCounts (output : Path) (actions : List ActionRecord) : List (String × Nat) :=
  actions.foldl
    (fun acc a => match a.dest with
      | none => acc
      | some d => bump acc (topFolder output d)) []

/-- The report `organize` returns. -/
structure Report where
  settings : Config
  totals : Totals
  folders_created : List String
  breakdown : List (String × Nat)
  total_files_in_output : Nat
  files : List ActionRecord
  errors : List ErrorRecord
deriving DecidableEq

/-- Assemble the final report from the engine state. -/
def buildReport (cfg : Config) (st : OrgState) : Report :=
  let fc := folderCounts cfg.output st.actions
  { settings := cfg,
    totals := st.totals,
    folders_created := List.insertionSort (fun a b => strLe a b = true) st.folders,
    breakdown := List.insertionSort (fun a b => strLe a.1 b.1 = true) fc,
    total_files_in_output := (fc.map Prod.snd).sum,
    files := st.actions,
    errors := st.errors }

/-- Fresh engine state over filesystem `fs` with `n` scanned files. -/
def initState (fs : FS) (n : Nat) : OrgState :=
  ⟨fs, [], [], [], [], ⟨n, 0, 0, 0, 0, 0⟩⟩

/-- Optional pre-run cleaning (lines 83–84 of the source): delete the
output root when `clean_output` is set, outside a dry run, and the root
exists. -/
def cleanFS (cfg : Config) (fs0 : FS) : FS :=
  if cfg.clean_output ∧ ¬cfg.dry_run ∧ pathExists fs0 cfg.output then rmtree fs0 cfg.output
  else fs0

/-- Engine state after the per-file loop: scan the cleaned filesystem, then
fold `processFile` over the scanned files. -/
def runState (cfg : Config) (fs0 : FS) : OrgState :=
  (collect_files (cleanFS cfg fs0) cfg.input cfg.recursive).foldl (processFile cfg)
    (initState (cleanFS cfg fs0)
      (collect_files (cleanFS cfg fs0) cfg.input cfg.recursive).length)

/-- The whole `organize` run: optional output cleaning, scan, the per-file
loop, report assembly.  Returns the report together with the final
filesystem state. -/
def organize (cfg : Config) (fs0 : FS) : Report × FS :=
  (buildReport cfg (runState cfg fs0), (runState cfg fs0).fs)

/-- Sum of the five per-file outcome counters of `Totals`. -/
def fiveSum (t : Totals) : Nat :=
  t.copied + t.moved + t.skipped_duplicates + t.duplicates_moved + t.errors

/-- An engine state transition that leaves totals, error list and action
list untouched (it may touch the filesystem, the seen-hash index and the
folder set). -/
def preserves (st st' : OrgState) : Prop :=
  st'.totals = st.totals ∧ st'.errors = st.errors ∧ st'.actions = st.actions

/-- Bookkeeping invariant of the engine: the error list tracks the error
counter and every recorded outcome is an action record or an error record. -/
def countsOk (st : OrgState) : Prop :=
  st.errors.length = st.totals.errors ∧
  st.actions.length + st.errors.length = fiveSum st.totals

/-- Every path the filesystem knows: file paths and created directories. -/
def allPaths (fs : FS) : List Path := fs.files.map Prod.fst ++ fs.dirs

/-- Value of a decimal digit string (left inverse of `Nat.repr`, used to
show distinct counters yield distinct collision candidates). -/
def parseDec (cs : List Char) : Nat := cs.foldl (fun a c => a * 10 + (c.toNat - 48)) 0

instance {ε α : Type} [DecidableEq ε] [DecidableEq α] : DecidableEq (Except ε α) := fun a b =>
  match a, b with
  | .error e, .error e' =>
    if h : e = e' then isTrue (by rw [h]) else isFalse (by intro hh; cases hh; exact h rfl)
  | .ok v, .ok v' =>
    if h : v = v' then isTrue (by rw [h]) else isFalse (by intro hh; cases hh; exact h rfl)
  | .error _, .ok _ => isFalse (by intro hh; cases hh)
  | .ok _, .error _ => isFalse (by intro hh; cases hh)

/-! ## Chunk invariance of the fingerprinter -/

theorem foldl_update (chunks : List (List Nat)) :
    ∀ acc : HashObj, chunks.foldl HashObj.update acc = ⟨acc.data ++ chunks.flatten⟩ := by
  induction chunks with
  | nil => intro acc; simp [HashObj.update]
  | cons c cs ih => intro acc; simp [HashObj.update, ih, List.append_assoc]

theorem chunksOfAux_flatten (k : Nat) (hk : 0 < k) :
    ∀ (fuel : Nat) (l : List Nat), l.length ≤ fuel → (chunksOfAux k fuel l).flatten = l := by
  intro fuel
  induction fuel with
  | zero =>
    intro l hl
    have : l = [] := List.eq_nil_of_length_eq_zero (Nat.le_zero.mp hl)
    subst this; rfl
  | succ f ih =>
    intro l hl
    cases l with
    | nil => rfl
    | cons x xs =>
      simp only [chunksOfAux, List.flatten_cons]
      rw [ih]
      · exact List.take_append_drop k (x :: xs)
      · have : (x :: xs).length - k ≤ f := by
          simp only [List.length_cons] at hl ⊢
          omega
        simpa [List.length_drop] using this

theorem chunksOf_flatten (k : Nat) (hk : 0 < k) (l : List Nat) :
    (chunksOf k l).flatten = l :=
  chunksOfAux_flatten k hk l.length l (Nat.le_refl _)

theorem sha256stream_eq (chunks : List (List Nat)) :
    sha256stream chunks = sha256hex chunks.flatten := by
  simp [sha256stream, foldl_update, HashObj.hexdigest]

/-! ## Engine step outcome analysis -/

theorem addFolder_totals (st : OrgState) (d : String) : (addFolder st d).totals = st.totals := rfl

theorem preserves_refl (st : OrgState) : preserves st st := ⟨rfl, rfl, rfl⟩

theorem doAction_outcome (cfg : Config) (st : OrgState) (src dest : Path) (label fh : String) :
    (∃ st' m, doAction cfg st src dest label fh = recError st' src m ∧ preserves st st') ∨
    (∃ st', doAction cfg st src dest label fh = recDone st' src dest label fh ∧ preserves st st') := by
  unfold doAction
  split
  · right; exact ⟨st, rfl, preserves_refl st⟩
  · split
    · rcases hm : moveFs (mkdirP st.fs dest.dropLast) src dest with m | fs2
      · left
        refine ⟨{ st with fs := mkdirP st.fs dest.dropLast }, m, ?_, ⟨rfl, rfl, rfl⟩⟩
        simp only [hm]
      · right
        refine ⟨{ st with fs := fs2 }, ?_, ⟨rfl, rfl, rfl⟩⟩
        simp only [hm]
    · rcases hc : copy2fs (mkdirP st.fs dest.dropLast) src dest with em | fs2
      · left
        refine ⟨{ st with fs := em.2 }, em.1, ?_, ⟨rfl, rfl, rfl⟩⟩
        simp only [hc]
      · split
        · rcases hu : unlinkFs fs2 src with m | fs3
          · left
            refine ⟨{ st with fs := fs2 }, m, ?_, ⟨rfl, rfl, rfl⟩⟩
            simp only [hc, hu]
          · right
            refine ⟨{ st with fs := fs3 }, ?_, ⟨rfl, rfl, rfl⟩⟩
            simp only [hc, hu]
        · right
          refine ⟨{ st with fs := fs2 }, ?_, ⟨rfl, rfl, rfl⟩⟩
          simp only [hc]

theorem preserves_trans {a b c : OrgState} (h1 : preserves a b) (h2 : preserves b c) :
    preserves a c :=
  ⟨h2.1.trans h1.1, h2.2.1.trans h1.2.1, h2.2.2.trans h1.2.2⟩

theorem processFile_outcome (cfg : Config) (st : OrgState) (src : Path) :
    (∃ st' m, processFile cfg st src = recError st' src m ∧ preserves st st') ∨
    (∃ st' f fh, processFile cfg st src = recSkip st' src f fh ∧ preserves st st') ∨
    (∃ st' d label fh, processFile cfg st src = recDone st' src d label fh ∧ preserves st st') := by
  unfold processFile
  rcases hs : sha256 st.fs src with m | fh <;> simp only [hs]
  · left; exact ⟨st, m, rfl, preserves_refl st⟩
  · rcases hl : st.seen.lookup fh with _ | f <;> simp only [hl]
    · rcases hd : destChoice cfg { st with seen := st.seen ++ [(fh, src)] } src false
        with m | dl <;> simp only [hd]
      · left
        exact ⟨{ st with seen := st.seen ++ [(fh, src)] }, m, rfl, ⟨rfl, rfl, rfl⟩⟩
      · have hpres : preserves st
            (addFolder { st with seen := st.seen ++ [(fh, src)] } (pathStr dl.1.dropLast)) :=
          ⟨rfl, rfl, rfl⟩
        rcases doAction_outcome cfg (addFolder { st with seen := st.seen ++ [(fh, src)] }
            (pathStr dl.1.dropLast)) src dl.1 dl.2 fh with ⟨st', m, he, hp⟩ | ⟨st', he, hp⟩
        · left; exact ⟨st', m, he, preserves_trans hpres hp⟩
        · right; right; exact ⟨st', dl.1, dl.2, fh, he, preserves_trans hpres hp⟩
    · split
      · right; left; exact ⟨st, f, fh, rfl, preserves_refl st⟩
      · rcases hd : destChoice cfg st src true with m | dl <;> simp only [hd]
        · left; exact ⟨st, m, rfl, preserves_refl st⟩
        · have hpres : preserves st (addFolder st (pathStr dl.1.dropLast)) := ⟨rfl, rfl, rfl⟩
          rcases doAction_outcome cfg (addFolder st (pathStr dl.1.dropLast)) src dl.1 dl.2 fh
            with ⟨st', m, he, hp⟩ | ⟨st', he, hp⟩
          · left; exact ⟨st', m, he, preserves_trans hpres hp⟩
          · right; right; exact ⟨st', dl.1, dl.2, fh, he, preserves_trans hpres hp⟩

/-! ## Totals bookkeeping -/

theorem recError_totals (st : OrgState) (src : Path) (m : String) :
    (recError st src m).totals.scanned_files = st.totals.scanned_files ∧
    fiveSum (recError st src m).totals = fiveSum st.totals + 1 := by
  simp [recError, fiveSum]
  omega

theorem recSkip_totals (st : OrgState) (src f : Path) (fh : String) :
    (recSkip st src f fh).totals.scanned_files = st.totals.scanned_files ∧
    fiveSum (recSkip st src f fh).totals = fiveSum st.totals + 1 := by
  simp [recSkip, fiveSum]; omega

theorem recDone_totals (st : OrgState) (src d : Path) (label fh : String) :
    (recDone st src d label fh).totals.scanned_files = st.totals.scanned_files ∧
    fiveSum (recDone st src d label fh).totals = fiveSum st.totals + 1 := by
  unfold recDone fiveSum
  split_ifs <;> simp <;> omega

theorem processFile_totals (cfg : Config) (st : OrgState) (src : Path) :
    (processFile cfg st src).totals.scanned_files = st.totals.scanned_files ∧
    fiveSum (processFile cfg st src).totals = fiveSum st.totals + 1 := by
  rcases processFile_outcome cfg st src with ⟨st', m, he, hp⟩ | ⟨st', f, fh, he, hp⟩ |
      ⟨st', d, label, fh, he, hp⟩
  · rw [he]
    have := recError_totals st' src m
    rw [hp.1] at this
    exact this
  · rw [he]
    have := recSkip_totals st' src f fh
    rw [hp.1] at this
    exact this
  · rw [he]
    have := recDone_totals st' src d label fh
    rw [hp.1] at this
    exact this

theorem foldl_totals (cfg : Config) (files : List Path) :
    ∀ st : OrgState,
      (files.foldl (processFile cfg) st).totals.scanned_files = st.totals.scanned_files ∧
      fiveSum (files.foldl (processFile cfg) st).totals = fiveSum st.totals + files.length := by
  induction files with
  | nil => intro st; simp
  | cons p ps ih =>
    intro st
    have h1 := processFile_totals cfg st p
    have h2 := ih (processFile cfg st p)
    simp only [List.foldl_cons, List.length_cons]
    constructor
    · omega
    · omega

/-- C9: at the end of every organize run the five per-file outcome counters
partition the scanned files: copied + moved + skipped_duplicates +
duplicates_moved + errors = scanned_files, because each scanned file bumps
exactly one of them. -/
theorem organize_totals_partition (cfg : Config) (fs0 : FS) :
    (organize cfg fs0).1.totals.copied + (organize cfg fs0).1.totals.moved +
      (organize cfg fs0).1.totals.skipped_duplicates +
      (organize cfg fs0).1.totals.duplicates_moved +
      (organize cfg fs0).1.totals.errors =
      (organize cfg fs0).1.totals.scanned_files := by
  have h1 : (organize cfg fs0).1.totals = (runState cfg fs0).totals := rfl
  rw [h1]
  unfold runState
  set files := collect_files (cleanFS cfg fs0) cfg.input cfg.recursive with hfiles
  rcases foldl_totals cfg files (initState (cleanFS cfg fs0) files.length) with ⟨hs, hf⟩
  have hA : (initState (cleanFS cfg fs0) files.length).totals.scanned_files = files.length := rfl
  have hB : fiveSum (initState (cleanFS cfg fs0) files.length).totals = 0 := rfl
  unfold fiveSum at hf hB
  omega

/-! ## Decimal rendering is injective -/

theorem toDigitsCore_shift :
    ∀ (n fuel : Nat) (ds : List Char), n < fuel →
      Nat.toDigitsCore 10 fuel n ds = Nat.toDigitsCore 10 (n + 1) n [] ++ ds := by
  intro n
  induction n using Nat.strong_induction_on with
  | _ n ih =>
    intro fuel ds hlt
    cases fuel with
    | zero => omega
    | succ f =>
      simp only [Nat.toDigitsCore]
      by_cases h10 : n / 10 = 0
      · simp [h10]
      · simp only [h10, if_false]
        have hn10 : n / 10 < n := by omega
        rw [ih (n / 10) hn10 f (Nat.digitChar (n % 10) :: ds) (by omega),
            ih (n / 10) hn10 n (Nat.digitChar (n % 10) :: []) (by omega)]
        simp

theorem toDigits_ten_lt (n : Nat) (h : n < 10) : Nat.toDigits 10 n = [Nat.digitChar n] := by
  unfold Nat.toDigits
  simp only [Nat.toDigitsCore]
  have h0 : n / 10 = 0 := by omega
  have h1 : n % 10 = n := by omega
  simp [h0, h1]

theorem toDigits_ten_ge (n : Nat) (h : 10 ≤ n) :
    Nat.toDigits 10 n = Nat.toDigits 10 (n / 10) ++ [Nat.digitChar (n % 10)] := by
  have h10 : ¬(n / 10 = 0) := by omega
  conv_lhs => rw [Nat.toDigits]
  conv_lhs => rw [Nat.toDigitsCore]
  simp only [h10, if_false]
  rw [toDigitsCore_shift (n / 10) n (Nat.digitChar (n % 10) :: []) (by omega)]
  rfl

theorem digitChar_val (d : Nat) (h : d < 10) : (Nat.digitChar d).toNat - 48 = d := by
  interval_cases d <;> decide

theorem parseDec_append_digit (cs : List Char) (c : Char) :
    parseDec (cs ++ [c]) = parseDec cs * 10 + (c.toNat - 48) := by
  simp [parseDec, List.foldl_append]

theorem parseDec_toDigits : ∀ n : Nat, parseDec (Nat.toDigits 10 n) = n := by
  intro n
  induction n using Nat.strong_induction_on with
  | _ n ih =>
    by_cases h : n < 10
    · rw [toDigits_ten_lt n h]
      have := digitChar_val n h
      simp [parseDec, this]
    · rw [toDigits_ten_ge n (by omega), parseDec_append_digit,
          ih (n / 10) (by omega),
          digitChar_val (n % 10) (by omega)]
      omega

theorem natRepr_inj {n m : Nat} (h : Nat.repr n = Nat.repr m) : n = m := by
  have hd : Nat.toDigits 10 n = Nat.toDigits 10 m := by
    have := congrArg String.data h
    simpa [Nat.repr, List.asString] using this
  have := congrArg parseDec hd
  rwa [parseDec_toDigits, parseDec_toDigits] at this

/-! ## Collision resolver: candidates, pigeonhole, loop correctness -/

theorem candName_inj (stem ex : String) {n m : Nat}
    (h : stem ++ "_" ++ Nat.repr n ++ ex = stem ++ "_" ++ Nat.repr m ++ ex) : n = m := by
  apply natRepr_inj
  have hd := congrArg String.data h
  simp only [String.data_append] at hd
  exact String.ext (List.append_cancel_left (List.append_cancel_right hd))

theorem candPath_inj (parent : Path) (stem ex : String) {n m : Nat}
    (h : candPath parent stem ex n = candPath parent stem ex m) : n = m := by
  unfold candPath at h
  have h1 := List.append_cancel_left h
  simp only [List.cons.injEq, and_true] at h1
  exact candName_inj stem ex h1

theorem candPath_length (parent : Path) (stem ex : String) (n : Nat) :
    (candPath parent stem ex n).length = parent.length + 1 := by
  simp [candPath]

theorem pathExists_iff (fs : FS) (p : Path) :
    pathExists fs p = true ↔ ∃ q, q ∈ allPaths fs ∧ p <+: q := by
  unfold pathExists allPaths
  simp only [Bool.or_eq_true, List.any_eq_true, List.isPrefixOf_iff_prefix, List.mem_append,
    List.mem_map]
  constructor
  · rintro (⟨e, he, hp⟩ | ⟨d, hd, hp⟩)
    · exact ⟨e.1, Or.inl ⟨e, he, rfl⟩, hp⟩
    · exact ⟨d, Or.inr hd, hp⟩
  · rintro ⟨q, hq | hq, hp⟩
    · obtain ⟨e, he, rfl⟩ := hq
      exact Or.inl ⟨e, he, hp⟩
    · exact Or.inr ⟨q, hq, hp⟩

theorem prefix_eq_of_length {α : Type} {a b q : List α} (ha : a <+: q) (hb : b <+: q)
    (hl : a.length = b.length) : a = b := by
  rw [List.prefix_iff_eq_take.mp ha, List.prefix_iff_eq_take.mp hb, hl]

theorem allPaths_length (fs : FS) : (allPaths fs).length = fsSize fs := by
  simp [allPaths, fsSize]

theorem exists_unused_cand (fs : FS) (parent : Path) (stem ex : String) :
    ∃ k, k < fsSize fs + 1 ∧
      pathExists fs (candPath parent stem ex (1 + k)) = false := by
  by_contra hcon
  push_neg at hcon
  have hall : ∀ k, k < fsSize fs + 1 → pathExists fs (candPath parent stem ex (1 + k)) = true := by
    intro k hk
    have := hcon k hk
    revert this
    cases pathExists fs (candPath parent stem ex (1 + k)) <;> simp
  have hch : ∀ k : Nat, ∃ q, k < fsSize fs + 1 →
      q ∈ allPaths fs ∧ candPath parent stem ex (1 + k) <+: q := by
    intro k
    by_cases hk : k < fsSize fs + 1
    · obtain ⟨q, hq, hp⟩ := (pathExists_iff fs _).mp (hall k hk)
      exact ⟨q, fun _ => ⟨hq, hp⟩⟩
    · exact ⟨[], fun h => absurd h hk⟩
  choose f hf using hch
  have hcard : (allPaths fs).toFinset.card < (Finset.range (fsSize fs + 1)).card := by
    have h1 := (allPaths fs).toFinset_card_le
    rw [Finset.card_range]
    have h2 := allPaths_length fs
    omega
  have hmaps : ∀ k ∈ Finset.range (fsSize fs + 1), f k ∈ (allPaths fs).toFinset := by
    intro k hk
    rw [List.mem_toFinset]
    exact (hf k (Finset.mem_range.mp hk)).1
  obtain ⟨i, hi, j, hj, hij, hfeq⟩ :=
    Finset.exists_ne_map_eq_of_card_lt_of_maps_to hcard hmaps
  apply hij
  have hpi := (hf i (Finset.mem_range.mp hi)).2
  have hpj := (hf j (Finset.mem_range.mp hj)).2
  rw [hfeq] at hpi
  have heq : candPath parent stem ex (1 + i) = candPath parent stem ex (1 + j) :=
    prefix_eq_of_length hpi hpj (by rw [candPath_length, candPath_length])
  have := candPath_inj parent stem ex heq
  omega

theorem safeDestGo_spec (fs : FS) (parent : Path) (stem ex : String) :
    ∀ (fuel start : Nat),
      (∃ k, k < fuel ∧ pathExists fs (candPath parent stem ex (start + k)) = false) →
      ∃ k, k < fuel ∧ pathExists fs (candPath parent stem ex (start + k)) = false ∧
        (∀ j, j < k → pathExists fs (candPath parent stem ex (start + j)) = true) ∧
        safeDestGo fs parent stem ex fuel start = candPath parent stem ex (start + k) := by
  intro fuel
  induction fuel with
  | zero => rintro start ⟨k, hk, _⟩; omega
  | succ f ih =>
    rintro start ⟨k, hk, hfree⟩
    by_cases h0 : pathExists fs (candPath parent stem ex start) = true
    · have hkpos : k ≠ 0 := by
        intro h
        rw [h, Nat.add_zero] at hfree
        rw [h0] at hfree
        exact Bool.true_eq_false.mp hfree
      obtain ⟨k', rfl⟩ : ∃ k', k = k' + 1 := ⟨k - 1, by omega⟩
      obtain ⟨k0, hk0, hfree0, hprev0, hres0⟩ := ih (start + 1)
        ⟨k', by omega, by rw [show start + 1 + k' = start + (k' + 1) by omega]; exact hfree⟩
      refine ⟨k0 + 1, by omega, ?_, ?_, ?_⟩
      · rw [show start + (k0 + 1) = start + 1 + k0 by omega]; exact hfree0
      · intro j hj
        cases j with
        | zero => simpa using h0
        | succ j' =>
          rw [show start + (j' + 1) = start + 1 + j' by omega]
          exact hprev0 j' (by omega)
      · simp only [safeDestGo, h0, if_true]
        rw [hres0, show start + (k0 + 1) = start + 1 + k0 by omega]
    · refine ⟨0, by omega, by simpa using h0, by omega, ?_⟩
      simp only [safeDestGo]
      rw [if_neg (by simpa using h0)]
      rw [Nat.add_zero]

theorem safe_dest_not_exists (fs : FS) (d : Path) (h : pathExists fs d = false) :
    safe_dest fs d = d := by
  unfold safe_dest
  rw [h]
  simp

theorem safe_dest_spec (fs : FS) (d : Path) (h : pathExists fs d = true) :
    ∃ n, 1 ≤ n ∧
      safe_dest fs d = candPath d.dropLast (pyStem (d.getLastD "")) (pySuffix (d.getLastD "")) n ∧
      pathExists fs (candPath d.dropLast (pyStem (d.getLastD "")) (pySuffix (d.getLastD "")) n)
        = false ∧
      ∀ m, 1 ≤ m → m < n →
        pathExists fs (candPath d.dropLast (pyStem (d.getLastD "")) (pySuffix (d.getLastD "")) m)
          = true := by
  obtain ⟨k, hk, hfree⟩ :=
    exists_unused_cand fs d.dropLast (pyStem (d.getLastD "")) (pySuffix (d.getLastD ""))
  obtain ⟨k0, hk0, hfree0, hprev0, hres0⟩ :=
    safeDestGo_spec fs d.dropLast (pyStem (d.getLastD "")) (pySuffix (d.getLastD ""))
      (fsSize fs + 1) 1 ⟨k, hk, hfree⟩
  refine ⟨1 + k0, by omega, ?_, hfree0, ?_⟩
  · unfold safe_dest
    rw [h]
    simpa using hres0
  · intro m h1 hm
    have := hprev0 (m - 1) (by omega)
    rwa [show 1 + (m - 1) = m by omega] at this

/-! ## String order: total and transitive -/

theorem strLeB_total : ∀ (a b : List Char), strLeB a b = true ∨ strLeB b a = true := by
  intro a
  induction a with
  | nil => intro b; left; cases b <;> simp [strLeB]
  | cons c cs ih =>
    intro b
    cases b with
    | nil => right; simp [strLeB]
    | cons d ds =>
      simp only [strLeB]
      rcases Nat.lt_trichotomy c.toNat d.toNat with h | h | h
      · left; simp [h]
      · rw [h]
        simp only [Nat.lt_irrefl, if_false]
        exact ih ds
      · right; simp [h]

theorem strLeB_trans :
    ∀ (a b c : List Char), strLeB a b = true → strLeB b c = true → strLeB a c = true := by
  intro a
  induction a with
  | nil => intro b c _ _; cases c <;> simp [strLeB] at *
  | cons x xs ih =>
    intro b c hab hbc
    cases b with
    | nil => simp [strLeB] at hab
    | cons y ys =>
      cases c with
      | nil => simp [strLeB] at hbc
      | cons z zs =>
        simp only [strLeB] at hab hbc ⊢
        by_cases h1 : x.toNat < y.toNat <;> by_cases h2 : y.toNat < z.toNat
        · simp [show x.toNat < z.toNat by omega]
        · simp only [h2, if_false] at hbc
          by_cases h3 : z.toNat < y.toNat
          · simp [h3] at hbc
          · simp [show x.toNat < z.toNat by omega]
        · simp only [h1, if_false] at hab
          by_cases h4 : y.toNat < x.toNat
          · simp [h4] at hab
          · simp [show x.toNat < z.toNat by omega]
        · simp only [h1, if_false] at hab
          by_cases h4 : y.toNat < x.toNat
          · simp [h4] at hab
          · simp only [h4, if_false] at hab
            simp only [h2, if_false] at hbc
            by_cases h3 : z.toNat < y.toNat
            · simp [h3] at hbc
            · simp only [h3, if_false] at hbc
              have hxz : ¬x.toNat < z.toNat := by omega
              have hzx : ¬z.toNat < x.toNat := by omega
              simp only [hxz, hzx, if_false]
              exact ih ys zs hab hbc

/-! ## Dry-run frame and bookkeeping invariants -/

theorem doAction_fs_dry (cfg : Config) (st : OrgState) (src dest : Path) (label fh : String)
    (h : cfg.dry_run = true) : (doAction cfg st src dest label fh).fs = st.fs := by
  unfold doAction
  simp [h, recDone]

theorem processFile_fs_dry (cfg : Config) (st : OrgState) (src : Path) (h : cfg.dry_run = true) :
    (processFile cfg st src).fs = st.fs := by
  unfold processFile
  rcases hs : sha256 st.fs src with m | fh <;> simp only [hs]
  · rfl
  · rcases hl : st.seen.lookup fh with _ | f <;> simp only [hl]
    · rcases hd : destChoice cfg { st with seen := st.seen ++ [(fh, src)] } src false
        with m | dl <;> simp only [hd]
      · rfl
      · rw [doAction_fs_dry _ _ _ _ _ _ h]; rfl
    · split
      · rfl
      · rcases hd : destChoice cfg st src true with m | dl <;> simp only [hd]
        · rfl
        · rw [doAction_fs_dry _ _ _ _ _ _ h]; rfl

theorem foldl_fs_dry (cfg : Config) (h : cfg.dry_run = true) :
    ∀ (files : List Path) (st : OrgState), (files.foldl (processFile cfg) st).fs = st.fs := by
  intro files
  induction files with
  | nil => intro st; rfl
  | cons p ps ih => intro st; rw [List.foldl_cons, ih, processFile_fs_dry cfg st p h]

theorem cleanFS_dry (cfg : Config) (fs0 : FS) (h : cfg.dry_run = true) :
    cleanFS cfg fs0 = fs0 := by
  unfold cleanFS
  rw [if_neg]
  simp [h]

theorem countsOk_of_preserves {st st' : OrgState} (hp : preserves st st') (h : countsOk st) :
    countsOk st' := by
  unfold countsOk at h ⊢
  rw [hp.1, hp.2.1, hp.2.2]
  exact h

theorem recError_counts (st : OrgState) (src : Path) (m : String) (h : countsOk st) :
    countsOk (recError st src m) := by
  unfold countsOk at h ⊢
  simp [recError, fiveSum] at h ⊢
  omega

theorem recSkip_counts (st : OrgState) (src f : Path) (fh : String) (h : countsOk st) :
    countsOk (recSkip st src f fh) := by
  unfold countsOk at h ⊢
  simp [recSkip, fiveSum] at h ⊢
  omega

theorem recDone_counts (st : OrgState) (src d : Path) (label fh : String) (h : countsOk st) :
    countsOk (recDone st src d label fh) := by
  unfold countsOk at h ⊢
  unfold recDone
  split_ifs <;> simp [fiveSum] at h ⊢ <;> omega

theorem processFile_counts (cfg : Config) (st : OrgState) (src : Path) (h : countsOk st) :
    countsOk (processFile cfg st src) := by
  rcases processFile_outcome cfg st src with ⟨st', m, he, hp⟩ | ⟨st', f, fh, he, hp⟩ |
      ⟨st', d, label, fh, he, hp⟩
  · rw [he]; exact recError_counts st' src m (countsOk_of_preserves hp h)
  · rw [he]; exact recSkip_counts st' src f fh (countsOk_of_preserves hp h)
  · rw [he]; exact recDone_counts st' src d label fh (countsOk_of_preserves hp h)

theorem foldl_counts (cfg : Config) :
    ∀ (files : List Path) (st : OrgState), countsOk st →
      countsOk (files.foldl (processFile cfg) st) := by
  intro files
  induction files with
  | nil => intro st h; exact h
  | cons p ps ih => intro st h; exact ih (processFile cfg st p) (processFile_counts cfg st p h)

theorem runState_counts (cfg : Config) (fs0 : FS) : countsOk (runState cfg fs0) := by
  unfold runState
  apply foldl_counts
  exact ⟨rfl, rfl⟩

/-! ## Per-branch behaviour of the engine step -/

theorem processFile_hashfail (cfg : Config) (st : OrgState) (src : Path) (m : String)
    (h : sha256 st.fs src = .error m) : processFile cfg st src = recError st src m := by
  unfold processFile
  simp only [h]

theorem doAction_seen (cfg : Config) (st : OrgState) (src dest : Path) (label fh : String) :
    (doAction cfg st src dest label fh).seen = st.seen := by
  unfold doAction
  split
  · rfl
  · split
    · rcases hm : moveFs (mkdirP st.fs dest.dropLast) src dest with m | fs2 <;>
        simp only [hm] <;> rfl
    · rcases hc : copy2fs (mkdirP st.fs dest.dropLast) src dest with em | fs2 <;>
        simp only [hc]
      · rfl
      · split
        · rcases hu : unlinkFs fs2 src with m | fs3 <;> simp only [hu] <;> rfl
        · rfl

theorem processFile_seen_register (cfg : Config) (st : OrgState) (src : Path) (fh : String)
    (hs : sha256 st.fs src = .ok fh) (hl : st.seen.lookup fh = none) :
    (processFile cfg st src).seen = st.seen ++ [(fh, src)] := by
  unfold processFile
  simp only [hs, hl]
  rcases hd : destChoice cfg { st with seen := st.seen ++ [(fh, src)] } src false
    with m | dl <;> simp only [hd]
  · rfl
  · rw [doAction_seen]
    rfl

theorem processFile_dup_skip (cfg : Config) (st : OrgState) (src f : Path) (fh : String)
    (hs : sha256 st.fs src = .ok fh) (hl : st.seen.lookup fh = some f)
    (hd : cfg.dedupe = "delete") : processFile cfg st src = recSkip st src f fh := by
  unfold processFile
  simp only [hs, hl, hd, if_true]

theorem dest_for_unknown (fs : FS) (p output : Path) (by_ : String)
    (h1 : ¬by_ = "type") (h2 : ¬by_ = "date") (h3 : ¬by_ = "type-date") :
    ∃ m, dest_for fs p output by_ = .error m := by
  unfold dest_for
  cases hf : fs.lookupFile p
  · exact ⟨_, rfl⟩
  · simp [h1, h2, h3]

theorem destChoice_unknown (cfg : Config) (st : OrgState) (src : Path) (isDup : Bool)
    (h1 : ¬cfg.by_ = "type") (h2 : ¬cfg.by_ = "date") (h3 : ¬cfg.by_ = "type-date") :
    (∃ d, destChoice cfg st src isDup =
      .ok (d, "duplicate_moved")) ∨ (∃ m, destChoice cfg st src isDup = .error m) := by
  unfold destChoice
  split
  · left; exact ⟨_, rfl⟩
  · obtain ⟨m, hm⟩ := dest_for_unknown st.fs src cfg.output cfg.by_ h1 h2 h3
    simp only [hm]
    right; exact ⟨m, rfl⟩

theorem recDone_dup_copied_moved (st : OrgState) (src d : Path) (fh : String) :
    (recDone st src d "duplicate_moved" fh).totals.copied = st.totals.copied ∧
    (recDone st src d "duplicate_moved" fh).totals.moved = st.totals.moved := by
  unfold recDone
  simp

theorem processFile_unknown_by (cfg : Config) (st : OrgState) (src : Path)
    (h1 : ¬cfg.by_ = "type") (h2 : ¬cfg.by_ = "date") (h3 : ¬cfg.by_ = "type-date") :
    (processFile cfg st src).totals.copied = st.totals.copied ∧
    (processFile cfg st src).totals.moved = st.totals.moved := by
  unfold processFile
  rcases hs : sha256 st.fs src with m | fh <;> simp only [hs]
  · simp [recError]
  · rcases hl : st.seen.lookup fh with _ | f <;> simp only [hl]
    · rcases destChoice_unknown cfg { st with seen := st.seen ++ [(fh, src)] } src false h1 h2 h3
        with ⟨d, hd⟩ | ⟨m, hd⟩ <;> simp only [hd]
      · rcases doAction_outcome cfg
            (addFolder { st with seen := st.seen ++ [(fh, src)] } (pathStr d.dropLast)) src d
            "duplicate_moved" fh with ⟨st', m, he, hp⟩ | ⟨st', he, hp⟩ <;> rw [he]
        · simp [recError, hp.1, addFolder]
        · have := recDone_dup_copied_moved st' src d fh
          rw [hp.1] at this
          simpa [addFolder] using this
      · simp [recError]
    · split
      · simp [recSkip]
      · rcases destChoice_unknown cfg st src true h1 h2 h3
          with ⟨d, hd⟩ | ⟨m, hd⟩ <;> simp only [hd]
        · rcases doAction_outcome cfg (addFolder st (pathStr d.dropLast)) src d
              "duplicate_moved" fh with ⟨st', m, he, hp⟩ | ⟨st', he, hp⟩ <;> rw [he]
          · simp [recError, hp.1, addFolder]
          · have := recDone_dup_copied_moved st' src d fh
            rw [hp.1] at this
            simpa [addFolder] using this
        · simp [recError]


/-! ## Filesystem lookup lemmas -/

theorem find_setFile_self (l : List (Path × FileData)) (p : Path) (fd : FileData) :
    (l.filter (fun e => ¬(e.1 = p)) ++ [(p, fd)]).find? (fun e => e.1 == p) = some (p, fd) := by
  induction l with
  | nil => simp
  | cons e es ih =>
    by_cases he : e.1 = p
    · simp only [List.filter_cons]
      rw [if_neg (by simpa using he)]
      exact ih
    · simp only [List.filter_cons]
      rw [if_pos (by simpa using he)]
      rw [List.cons_append, List.find?_cons_of_neg _ (by simpa using he)]
      exact ih

theorem find_setFile_other (l : List (Path × FileData)) (p : Path) (fd : FileData) (q : Path)
    (h : ¬q = p) :
    (l.filter (fun e => ¬(e.1 = p)) ++ [(p, fd)]).find? (fun e => e.1 == q) =
      l.find? (fun e => e.1 == q) := by
  induction l with
  | nil =>
    simp only [List.filter_nil, List.nil_append, List.find?_nil]
    rw [List.find?_cons_of_neg _ (by simp; exact fun hh => h hh.symm), List.find?_nil]
  | cons e es ih =>
    by_cases he : e.1 = p
    · simp only [List.filter_cons]
      rw [if_neg (by simpa using he)]
      rw [List.find?_cons_of_neg _ (by simp [he]; exact fun hh => h hh.symm)]
      exact ih
    · simp only [List.filter_cons]
      rw [if_pos (by simpa using he)]
      by_cases hq : e.1 = q
      · rw [List.cons_append, List.find?_cons_of_pos _ (by simpa using hq),
            List.find?_cons_of_pos _ (by simpa using hq)]
      · rw [List.cons_append, List.find?_cons_of_neg _ (by simpa using hq),
            List.find?_cons_of_neg _ (by simpa using hq)]
        exact ih

theorem lookupFile_setFile_self (fs : FS) (p : Path) (fd : FileData) :
    (fs.setFile p fd).lookupFile p = some fd := by
  unfold FS.setFile FS.lookupFile
  simp only [find_setFile_self]
  rfl

theorem lookupFile_setFile_other (fs : FS) (p : Path) (fd : FileData) (q : Path) (h : ¬q = p) :
    (fs.setFile p fd).lookupFile q = fs.lookupFile q := by
  unfold FS.setFile FS.lookupFile
  rw [find_setFile_other fs.files p fd q h]

theorem find_removeFile (l : List (Path × FileData)) (p q : Path) (h : ¬q = p) :
    (l.filter (fun e => ¬(e.1 = p))).find? (fun e => e.1 == q) =
      l.find? (fun e => e.1 == q) := by
  induction l with
  | nil => simp
  | cons e es ih =>
    by_cases he : e.1 = p
    · simp only [List.filter_cons]
      rw [if_neg (by simpa using he)]
      rw [List.find?_cons_of_neg _ (by simp [he]; exact fun hh => h hh.symm)]
      exact ih
    · simp only [List.filter_cons]
      rw [if_pos (by simpa using he)]
      by_cases hq : e.1 = q
      · rw [List.find?_cons_of_pos _ (by simpa using hq),
            List.find?_cons_of_pos _ (by simpa using hq)]
      · rw [List.find?_cons_of_neg _ (by simpa using hq),
            List.find?_cons_of_neg _ (by simpa using hq)]
        exact ih

theorem lookupFile_removeFile_other (fs : FS) (p q : Path) (h : ¬q = p) :
    (fs.removeFile p).lookupFile q = fs.lookupFile q := by
  unfold FS.removeFile FS.lookupFile
  rw [find_removeFile fs.files p q h]

theorem lookupFile_removeFile_self (fs : FS) (p : Path) :
    (fs.removeFile p).lookupFile p = none := by
  unfold FS.removeFile FS.lookupFile
  rw [List.find?_eq_none.mpr]
  · rfl
  · intro e he
    have := List.of_mem_filter he
    simp only [decide_eq_true_eq] at this
    simpa using this

theorem lookupFile_mkdirP (fs : FS) (d p : Path) :
    (mkdirP fs d).lookupFile p = fs.lookupFile p := by
  unfold mkdirP
  split <;> rfl

/-! ## Duplicate materialization -/

theorem doAction_dup (cfg : Config) (st : OrgState) (src dest : Path) (fh : String)
    (hdry : cfg.dry_run = false) :
    doAction cfg st src dest "duplicate_moved" fh =
      match copy2fs (mkdirP st.fs dest.dropLast) src dest with
      | .error em => recError { st with fs := em.2 } src em.1
      | .ok fs2 =>
        if cfg.move = true then
          match unlinkFs fs2 src with
          | .error m => recError { st with fs := fs2 } src m
          | .ok fs3 => recDone { st with fs := fs3 } src dest "duplicate_moved" fh
        else recDone { st with fs := fs2 } src dest "duplicate_moved" fh := by
  unfold doAction
  rw [if_neg (by simp [hdry])]
  rw [if_neg (by simp)]
  rcases hc : copy2fs (mkdirP st.fs dest.dropLast) src dest with em | fs2
  · simp only [hc]
  · simp only [hc]
    by_cases hm : cfg.move = true
    · rw [if_pos (by simp [hm]), if_pos hm]
    · rw [if_neg (by simp [hm]), if_neg hm]

theorem processFile_dup_move (cfg : Config) (st : OrgState) (src : Path) (fh : String)
    (f : Path) (dst : Path)
    (hded : cfg.dedupe = "move")
    (hs : sha256 st.fs src = .ok fh) (hl : st.seen.lookup fh = some f)
    (hdst : dst = safe_dest st.fs (cfg.output ++ ["Duplicates", src.getLastD ""])) :
    processFile cfg st src =
      doAction cfg (addFolder st (pathStr dst.dropLast)) src dst "duplicate_moved" fh := by
  unfold processFile
  simp only [hs, hl]
  rw [if_neg (by rw [hded]; simp)]
  unfold destChoice
  rw [if_pos (by simp [hded])]
  rw [hdst]

/-- C7: under dedupe policy `move` (outside a dry run) a duplicate is
materialized by copy-then-optionally-delete-source, never a direct
relocate: the destination below `Duplicates` receives the source's content
and modification time; with move mode off the source is left intact; with
move mode on the source is unlinked only after the copy succeeded; and if
the copy raises — with or without move mode — the source is still intact. -/
theorem duplicate_copy_semantics (cfg : Config) (st : OrgState) (src : Path) (fd : FileData)
    (fh : String) (f : Path) (dst : Path)
    (hded : cfg.dedupe = "move") (hdry : cfg.dry_run = false)
    (hs : sha256 st.fs src = .ok fh) (hl : st.seen.lookup fh = some f)
    (hsrc : st.fs.lookupFile src = some fd)
    (hdst : dst = safe_dest st.fs (cfg.output ++ ["Duplicates", src.getLastD ""]))
    (hne : ¬src = dst) :
    (fd.copyFault = none →
      (processFile cfg st src).fs.lookupFile dst =
        some ⟨fd.content, fd.mtime, false, none, false⟩) ∧
    (fd.copyFault = none → cfg.move = false →
      (processFile cfg st src).fs.lookupFile src = some fd) ∧
    (fd.copyFault = none → cfg.move = true →
      (processFile cfg st src).fs.lookupFile src = none) ∧
    (∀ fault, fd.copyFault = some fault →
      (processFile cfg st src).fs.lookupFile src = some fd) := by
  have hne' : ¬dst = src := fun hh => hne hh.symm
  rw [processFile_dup_move cfg st src fh f dst hded hs hl hdst,
      doAction_dup cfg _ src dst fh hdry]
  have haf : (addFolder st (pathStr dst.dropLast)).fs = st.fs := rfl
  have hlk : (mkdirP (addFolder st (pathStr dst.dropLast)).fs dst.dropLast).lookupFile src
      = some fd := by rw [haf, lookupFile_mkdirP, hsrc]
  refine ⟨?_, ?_, ?_, ?_⟩
  · intro hcf
    have hcpy : copy2fs (mkdirP (addFolder st (pathStr dst.dropLast)).fs dst.dropLast) src dst =
        .ok ((mkdirP st.fs dst.dropLast).setFile dst ⟨fd.content, fd.mtime, false, none, false⟩)
        := by
      unfold copy2fs
      rw [hlk]
      simp only [hcf]
      rw [haf]
    simp only [hcpy]
    by_cases hm : cfg.move = true
    · rw [if_pos hm]
      have hu : unlinkFs ((mkdirP st.fs dst.dropLast).setFile dst
          ⟨fd.content, fd.mtime, false, none, false⟩) src =
          .ok (((mkdirP st.fs dst.dropLast).setFile dst
            ⟨fd.content, fd.mtime, false, none, false⟩).removeFile src) := by
        unfold unlinkFs
        rw [lookupFile_setFile_other _ _ _ _ hne, lookupFile_mkdirP, hsrc]
      simp only [hu]
      show (((mkdirP st.fs dst.dropLast).setFile dst
        ⟨fd.content, fd.mtime, false, none, false⟩).removeFile src).lookupFile dst = _
      rw [lookupFile_removeFile_other _ _ _ hne', lookupFile_setFile_self]
    · rw [if_neg hm]
      show ((mkdirP st.fs dst.dropLast).setFile dst
        ⟨fd.content, fd.mtime, false, none, false⟩).lookupFile dst = _
      rw [lookupFile_setFile_self]
  · intro hcf hm
    have hcpy : copy2fs (mkdirP (addFolder st (pathStr dst.dropLast)).fs dst.dropLast) src dst =
        .ok ((mkdirP st.fs dst.dropLast).setFile dst ⟨fd.content, fd.mtime, false, none, false⟩)
        := by
      unfold copy2fs
      rw [hlk]
      simp only [hcf]
      rw [haf]
    simp only [hcpy]; rw [if_neg (by simp [hm])]
    show ((mkdirP st.fs dst.dropLast).setFile dst
      ⟨fd.content, fd.mtime, false, none, false⟩).lookupFile src = _
    rw [lookupFile_setFile_other _ _ _ _ hne, lookupFile_mkdirP, hsrc]
  · intro hcf hm
    have hcpy : copy2fs (mkdirP (addFolder st (pathStr dst.dropLast)).fs dst.dropLast) src dst =
        .ok ((mkdirP st.fs dst.dropLast).setFile dst ⟨fd.content, fd.mtime, false, none, false⟩)
        := by
      unfold copy2fs
      rw [hlk]
      simp only [hcf]
      rw [haf]
    simp only [hcpy]; rw [if_pos hm]
    have hu : unlinkFs ((mkdirP st.fs dst.dropLast).setFile dst
        ⟨fd.content, fd.mtime, false, none, false⟩) src =
        .ok (((mkdirP st.fs dst.dropLast).setFile dst
          ⟨fd.content, fd.mtime, false, none, false⟩).removeFile src) := by
      unfold unlinkFs
      rw [lookupFile_setFile_other _ _ _ _ hne, lookupFile_mkdirP, hsrc]
    simp only [hu]
    show (((mkdirP st.fs dst.dropLast).setFile dst
      ⟨fd.content, fd.mtime, false, none, false⟩).removeFile src).lookupFile src = _
    rw [lookupFile_removeFile_self]
  · intro fault hcf
    cases fault with
    | none =>
      have hcpy : copy2fs (mkdirP (addFolder st (pathStr dst.dropLast)).fs dst.dropLast) src dst =
          .error ("Copy error: " ++ pathStr src, mkdirP st.fs dst.dropLast) := by
        unfold copy2fs
        rw [hlk]
        simp only [hcf]
        rw [haf]
      simp only [hcpy]
      show (mkdirP st.fs dst.dropLast).lookupFile src = _
      rw [lookupFile_mkdirP, hsrc]
    | some half =>
      have hcpy : copy2fs (mkdirP (addFolder st (pathStr dst.dropLast)).fs dst.dropLast) src dst =
          .error ("Copy error: " ++ pathStr src,
            (mkdirP st.fs dst.dropLast).setFile dst ⟨half, 0, false, none, false⟩) := by
        unfold copy2fs
        rw [hlk]
        simp only [hcf]
        rw [haf]
      simp only [hcpy]
      show ((mkdirP st.fs dst.dropLast).setFile dst
        ⟨half, 0, false, none, false⟩).lookupFile src = _
      rw [lookupFile_setFile_other _ _ _ _ hne, lookupFile_mkdirP, hsrc]

/-! ## Run-level assembly lemmas -/

theorem runState_fiveSum (cfg : Config) (fs0 : FS) :
    fiveSum (runState cfg fs0).totals = (runState cfg fs0).totals.scanned_files := by
  unfold runState
  set files := collect_files (cleanFS cfg fs0) cfg.input cfg.recursive with hfiles
  rcases foldl_totals cfg files (initState (cleanFS cfg fs0) files.length) with ⟨hs, hf⟩
  have hA : (initState (cleanFS cfg fs0) files.length).totals.scanned_files = files.length := rfl
  have hB : fiveSum (initState (cleanFS cfg fs0) files.length).totals = 0 := rfl
  unfold fiveSum at hf hB ⊢
  omega

theorem foldl_unknown_by (cfg : Config)
    (h1 : ¬cfg.by_ = "type") (h2 : ¬cfg.by_ = "date") (h3 : ¬cfg.by_ = "type-date") :
    ∀ (files : List Path) (st : OrgState),
      (files.foldl (processFile cfg) st).totals.copied = st.totals.copied ∧
      (files.foldl (processFile cfg) st).totals.moved = st.totals.moved := by
  intro files
  induction files with
  | nil => intro st; exact ⟨rfl, rfl⟩
  | cons p ps ih =>
    intro st
    rcases processFile_unknown_by cfg st p h1 h2 h3 with ⟨hc, hm⟩
    rcases ih (processFile cfg st p) with ⟨hc', hm'⟩
    rw [List.foldl_cons]
    exact ⟨hc'.trans hc, hm'.trans hm⟩

theorem organize_fs_dry (cfg : Config) (fs0 : FS) (h : cfg.dry_run = true) :
    (organize cfg fs0).2 = fs0 := by
  show (runState cfg fs0).fs = fs0
  unfold runState
  rw [foldl_fs_dry cfg h]
  show cleanFS cfg fs0 = fs0
  exact cleanFS_dry cfg fs0 h

/-! ## Claim theorems -/

set_option maxRecDepth 2000000 in
/-- C1, counterexample: with the unknown strategy value `bogus`, the run does
not fail fatally — the `ValueError` is caught by the per-file handler, a
per-file `ErrorRecord` IS recorded for the first file, and the batch DOES
continue to the second file, which gets its own record. -/
theorem unknown_strategy_cex :
    (organize ⟨["in"], ["out"], "bogus", false, "off", false, false, false⟩
        ⟨[(["in", "a.txt"], ⟨[1], 11, false, none, false⟩),
          (["in", "b.txt"], ⟨[2], 22, false, none, false⟩)], []⟩).1.errors =
      [⟨["in", "a.txt"], "Unknown --by value: bogus"⟩,
       ⟨["in", "b.txt"], "Unknown --by value: bogus"⟩] ∧
    (organize ⟨["in"], ["out"], "bogus", false, "off", false, false, false⟩
        ⟨[(["in", "a.txt"], ⟨[1], 11, false, none, false⟩),
          (["in", "b.txt"], ⟨[2], 22, false, none, false⟩)], []⟩).1.totals.errors = 2 := by
  decide

/-- C1, amended: an unknown strategy value never reaches a copy or a move —
every file that needs the Destination Resolver errors at the per-file
boundary instead, and the batch still accounts for every scanned file
among errors, skipped duplicates and duplicates moved. -/
theorem unknown_strategy_caught_per_file (cfg : Config) (fs0 : FS)
    (h1 : ¬cfg.by_ = "type") (h2 : ¬cfg.by_ = "date") (h3 : ¬cfg.by_ = "type-date") :
    (organize cfg fs0).1.totals.copied = 0 ∧
    (organize cfg fs0).1.totals.moved = 0 ∧
    (organize cfg fs0).1.totals.errors + (organize cfg fs0).1.totals.skipped_duplicates +
      (organize cfg fs0).1.totals.duplicates_moved =
      (organize cfg fs0).1.totals.scanned_files := by
  have hz := foldl_unknown_by cfg h1 h2 h3
    (collect_files (cleanFS cfg fs0) cfg.input cfg.recursive)
    (initState (cleanFS cfg fs0)
      (collect_files (cleanFS cfg fs0) cfg.input cfg.recursive).length)
  have hf := runState_fiveSum cfg fs0
  have hrs : (organize cfg fs0).1.totals = (runState cfg fs0).totals := rfl
  rw [hrs]
  unfold runState at hf ⊢
  unfold fiveSum at hf
  have hA : (initState (cleanFS cfg fs0)
      (collect_files (cleanFS cfg fs0) cfg.input cfg.recursive).length).totals.copied = 0 := rfl
  have hB : (initState (cleanFS cfg fs0)
      (collect_files (cleanFS cfg fs0) cfg.input cfg.recursive).length).totals.moved = 0 := rfl
  rcases hz with ⟨hzc, hzm⟩
  refine ⟨by omega, by omega, by omega⟩

set_option maxRecDepth 2000000 in
/-- Witness for the amended C1: concrete two-file run under strategy
`bogus`. -/
theorem unknown_strategy_caught_per_file_w :
    (organize ⟨["in"], ["out"], "bogus", false, "off", false, false, false⟩
        ⟨[(["in", "a.txt"], ⟨[1], 11, false, none, false⟩),
          (["in", "b.txt"], ⟨[2], 22, false, none, false⟩)], []⟩).1.totals.copied = 0 ∧
    (organize ⟨["in"], ["out"], "bogus", false, "off", false, false, false⟩
        ⟨[(["in", "a.txt"], ⟨[1], 11, false, none, false⟩),
          (["in", "b.txt"], ⟨[2], 22, false, none, false⟩)], []⟩).1.totals.moved = 0 ∧
    (organize ⟨["in"], ["out"], "bogus", false, "off", false, false, false⟩
        ⟨[(["in", "a.txt"], ⟨[1], 11, false, none, false⟩),
          (["in", "b.txt"], ⟨[2], 22, false, none, false⟩)], []⟩).1.totals.errors +
      (organize ⟨["in"], ["out"], "bogus", false, "off", false, false, false⟩
        ⟨[(["in", "a.txt"], ⟨[1], 11, false, none, false⟩),
          (["in", "b.txt"], ⟨[2], 22, false, none, false⟩)], []⟩).1.totals.skipped_duplicates +
      (organize ⟨["in"], ["out"], "bogus", false, "off", false, false, false⟩
        ⟨[(["in", "a.txt"], ⟨[1], 11, false, none, false⟩),
          (["in", "b.txt"], ⟨[2], 22, false, none, false⟩)], []⟩).1.totals.duplicates_moved =
      (organize ⟨["in"], ["out"], "bogus", false, "off", false, false, false⟩
        ⟨[(["in", "a.txt"], ⟨[1], 11, false, none, false⟩),
          (["in", "b.txt"], ⟨[2], 22, false, none, false⟩)], []⟩).1.totals.scanned_files :=
  unknown_strategy_caught_per_file _ _ (by decide) (by decide) (by decide)

set_option maxRecDepth 2000000 in
/-- C2, counterexample: a copy that fails halfway (disk-full style fault)
is recorded as an `ErrorRecord` and not counted as a copy, but it DOES
leave a half-written destination file behind — the destination filesystem
contains an entry attributable to the failed file. -/
theorem copy_fault_half_written_cex :
    (organize ⟨["in"], ["out"], "type", false, "off", false, false, false⟩
        ⟨[(["in", "a.txt"], ⟨[1, 2, 3], 5, false, some (some [1]), false⟩)], []⟩).2.lookupFile
        ["out", "txt", "a.txt"] = some ⟨[1], 0, false, none, false⟩ ∧
    (organize ⟨["in"], ["out"], "type", false, "off", false, false, false⟩
        ⟨[(["in", "a.txt"], ⟨[1, 2, 3], 5, false, some (some [1]), false⟩)], []⟩).1.errors =
      [⟨["in", "a.txt"], "Copy error: /in/a.txt"⟩] ∧
    (organize ⟨["in"], ["out"], "type", false, "off", false, false, false⟩
        ⟨[(["in", "a.txt"], ⟨[1, 2, 3], 5, false, some (some [1]), false⟩)], []⟩).1.totals =
      ⟨1, 0, 0, 0, 0, 1⟩ := by
  decide

/-- C2, amended: every per-file failure is isolated — it is recorded as
exactly one `ErrorRecord`, matched by `totals.errors`, every scanned file
ends as either an action record or an error record (the batch continues
past failures and an errored file is never counted as a copy or move), and
a failure while hashing leaves the whole engine state, the filesystem
included, untouched apart from the error record.  (A failure during the
copy itself may leave a half-written destination file, see the
counterexample.) -/
theorem per_file_error_isolation (cfg : Config) (fs0 : FS) :
    ((organize cfg fs0).1.errors.length = (organize cfg fs0).1.totals.errors ∧
     (organize cfg fs0).1.files.length + (organize cfg fs0).1.errors.length =
       (organize cfg fs0).1.totals.scanned_files) ∧
    (∀ (st : OrgState) (src : Path) (m : String), sha256 st.fs src = .error m →
      processFile cfg st src = recError st src m) := by
  constructor
  · have hc := runState_counts cfg fs0
    have hf := runState_fiveSum cfg fs0
    have h1 : (organize cfg fs0).1.files = (runState cfg fs0).actions := rfl
    have h2 : (organize cfg fs0).1.errors = (runState cfg fs0).errors := rfl
    have h3 : (organize cfg fs0).1.totals = (runState cfg fs0).totals := rfl
    rw [h1, h2, h3]
    rcases hc with ⟨hca, hcb⟩
    unfold fiveSum at hcb hf
    exact ⟨hca, by omega⟩
  · intro st src m hm
    exact processFile_hashfail cfg st src m hm

/-- Witness for the amended C2: a concrete unreadable file is turned into
exactly the per-file error record, with no other state change. -/
theorem per_file_error_isolation_w :
    processFile ⟨["in"], ["out"], "type", false, "off", false, false, false⟩
      ⟨⟨[(["in", "x"], ⟨[], 0, true, none, false⟩)], []⟩, [], [], [], [], ⟨1, 0, 0, 0, 0, 0⟩⟩
      ["in", "x"] =
    recError ⟨⟨[(["in", "x"], ⟨[], 0, true, none, false⟩)], []⟩, [], [], [], [],
      ⟨1, 0, 0, 0, 0, 0⟩⟩ ["in", "x"] "Read error: /in/x" :=
  (per_file_error_isolation ⟨["in"], ["out"], "type", false, "off", false, false, false⟩
    ⟨[], []⟩).2
    ⟨⟨[(["in", "x"], ⟨[], 0, true, none, false⟩)], []⟩, [], [], [], [], ⟨1, 0, 0, 0, 0, 0⟩⟩
    ["in", "x"] "Read error: /in/x" (by decide)

set_option maxRecDepth 4000000 in
/-- C3: the spec's worked scenario — `a.txt` and a byte-identical `b.txt`
(modified 2023-05-10), strategy `type-date`, dedupe `move`, copy mode —
reproduced exactly: `a.txt` is copied to `out/txt/2023-05/a.txt`, `b.txt`
goes to `out/Duplicates/b.txt`, totals are scanned 2, copied 1,
duplicates_moved 1 and zero otherwise, and both source files survive with
their content and modification time. -/
theorem scenario_type_date_dedupe_move :
    organize ⟨["in"], ["out"], "type-date", false, "move", false, false, false⟩
        ⟨[(["in", "a.txt"], ⟨[104, 105], 1683676800, false, none, false⟩),
          (["in", "b.txt"], ⟨[104, 105], 1683676800, false, none, false⟩)], []⟩ =
      (⟨⟨["in"], ["out"], "type-date", false, "move", false, false, false⟩,
        ⟨2, 1, 0, 0, 1, 0⟩,
        ["/out/Duplicates", "/out/txt/2023-05"],
        [("Duplicates", 1), ("txt", 1)], 2,
        [⟨["in", "a.txt"], some ["out", "txt", "2023-05", "a.txt"], "copy", none,
          "8f434346648f6b96df89dda901c5176b10a6d83961dd3c1ac88b59b2dc327aa4"⟩,
         ⟨["in", "b.txt"], some ["out", "Duplicates", "b.txt"], "duplicate_moved", none,
          "8f434346648f6b96df89dda901c5176b10a6d83961dd3c1ac88b59b2dc327aa4"⟩],
        []⟩,
       ⟨[(["in", "a.txt"], ⟨[104, 105], 1683676800, false, none, false⟩),
         (["in", "b.txt"], ⟨[104, 105], 1683676800, false, none, false⟩),
         (["out", "txt", "2023-05", "a.txt"], ⟨[104, 105], 1683676800, false, none, false⟩),
         (["out", "Duplicates", "b.txt"], ⟨[104, 105], 1683676800, false, none, false⟩)],
        [["out", "txt", "2023-05"], ["out", "Duplicates"]]⟩) := by
  decide

/-- C4: the collision resolver returns its argument unchanged when the
path is unused, and otherwise the first candidate `stem_n.ext` (counter
from 1, inserted before the extension, step 1) that does not exist on the
filesystem passed in — every smaller counter names an existing path. -/
theorem safe_dest_first_unused (fs : FS) (d : Path) :
    (pathExists fs d = false → safe_dest fs d = d) ∧
    (pathExists fs d = true →
      ∃ n, 1 ≤ n ∧
        safe_dest fs d =
          candPath d.dropLast (pyStem (d.getLastD "")) (pySuffix (d.getLastD "")) n ∧
        pathExists fs
          (candPath d.dropLast (pyStem (d.getLastD "")) (pySuffix (d.getLastD "")) n) = false ∧
        ∀ m, 1 ≤ m → m < n →
          pathExists fs
            (candPath d.dropLast (pyStem (d.getLastD "")) (pySuffix (d.getLastD "")) m)
            = true) :=
  ⟨safe_dest_not_exists fs d, safe_dest_spec fs d⟩

/-- Witness for C4: the spec's collision scenario — `report.pdf` already
exists, so the resolver must yield a fresh suffixed candidate. -/
theorem safe_dest_first_unused_w :
    pathExists ⟨[(["out", "pdf", "report.pdf"], ⟨[9], 3, false, none, false⟩)], []⟩
      ["out", "pdf", "report.pdf"] = true ∧
    ∃ n, 1 ≤ n ∧
      safe_dest ⟨[(["out", "pdf", "report.pdf"], ⟨[9], 3, false, none, false⟩)], []⟩
          ["out", "pdf", "report.pdf"] =
        candPath ["out", "pdf"] "report" ".pdf" n ∧
      pathExists ⟨[(["out", "pdf", "report.pdf"], ⟨[9], 3, false, none, false⟩)], []⟩
        (candPath ["out", "pdf"] "report" ".pdf" n) = false ∧
      ∀ m, 1 ≤ m → m < n →
        pathExists ⟨[(["out", "pdf", "report.pdf"], ⟨[9], 3, false, none, false⟩)], []⟩
          (candPath ["out", "pdf"] "report" ".pdf" m) = true :=
  ⟨by decide,
   (safe_dest_first_unused ⟨[(["out", "pdf", "report.pdf"], ⟨[9], 3, false, none, false⟩)], []⟩
     ["out", "pdf", "report.pdf"]).2 (by decide)⟩

theorem globMatch_false_iff (dir p : Path) :
    globMatch dir false p = true ↔ (dir <+: p ∧ p.length = dir.length + 1) := by
  unfold globMatch
  simp [List.isPrefixOf_iff_prefix]

theorem globMatch_true_iff (dir p : Path) :
    globMatch dir true p = true ↔ (dir <+: p ∧ dir.length < p.length) := by
  unfold globMatch
  simp [List.isPrefixOf_iff_prefix]

/-- C5: the batch scanner returns exactly the regular files that the glob
of the input directory matches — descending only when `recursive` is set —
minus the ones whose own name starts with a dot, and the returned sequence
is sorted lexicographically by the full path string, so a rescan of
unchanged input reproduces it. -/
theorem collect_files_spec (fs : FS) (input_dir : Path) (recursive : Bool) :
    (collect_files fs input_dir recursive).Pairwise
      (fun p q => strLe (pathStr p) (pathStr q) = true) ∧
    (∀ p : Path, p ∈ collect_files fs input_dir recursive ↔
      (p ∈ fs.files.map Prod.fst ∧ input_dir <+: p ∧
       (recursive = true → input_dir.length < p.length) ∧
       (recursive = false → p.length = input_dir.length + 1) ∧
       hiddenName p = false)) := by
  constructor
  · haveI h1 : IsTotal Path (fun p q => strLe (pathStr p) (pathStr q) = true) :=
      ⟨fun a b => strLeB_total _ _⟩
    haveI h2 : IsTrans Path (fun p q => strLe (pathStr p) (pathStr q) = true) :=
      ⟨fun a b c hab hbc => strLeB_trans _ _ _ hab hbc⟩
    exact List.sorted_insertionSort _ _
  · intro p
    unfold collect_files
    rw [List.mem_insertionSort, List.mem_filter]
    cases recursive
    · constructor
      · rintro ⟨hmem, hf⟩
        rw [Bool.and_eq_true, Bool.not_eq_true'] at hf
        rcases hf with ⟨hg, hh⟩
        rcases (globMatch_false_iff input_dir p).mp hg with ⟨hpre, hlen⟩
        exact ⟨hmem, hpre, fun hc => absurd hc (by simp), fun _ => hlen, hh⟩
      · rintro ⟨hmem, hpre, _, h2, hh⟩
        refine ⟨hmem, ?_⟩
        rw [Bool.and_eq_true, Bool.not_eq_true']
        exact ⟨(globMatch_false_iff input_dir p).mpr ⟨hpre, h2 rfl⟩, hh⟩
    · constructor
      · rintro ⟨hmem, hf⟩
        rw [Bool.and_eq_true, Bool.not_eq_true'] at hf
        rcases hf with ⟨hg, hh⟩
        rcases (globMatch_true_iff input_dir p).mp hg with ⟨hpre, hlen⟩
        exact ⟨hmem, hpre, fun _ => hlen, fun hc => absurd hc (by simp), hh⟩
      · rintro ⟨hmem, hpre, h1, _, hh⟩
        refine ⟨hmem, ?_⟩
        rw [Bool.and_eq_true, Bool.not_eq_true']
        exact ⟨(globMatch_true_iff input_dir p).mpr ⟨hpre, h1 rfl⟩, hh⟩

/-- Witness for C5: a concrete one-file scan. -/
theorem collect_files_spec_w :
    (collect_files ⟨[(["in", "a.txt"], ⟨[1], 2, false, none, false⟩)], []⟩
        ["in"] false).Pairwise (fun p q => strLe (pathStr p) (pathStr q) = true) ∧
    (∀ p : Path,
      p ∈ collect_files ⟨[(["in", "a.txt"], ⟨[1], 2, false, none, false⟩)], []⟩ ["in"] false ↔
      (p ∈ (FS.mk [(["in", "a.txt"], ⟨[1], 2, false, none, false⟩)] []).files.map Prod.fst ∧
       (["in"] : Path) <+: p ∧
       (false = true → (["in"] : Path).length < p.length) ∧
       (false = false → p.length = (["in"] : Path).length + 1) ∧
       hiddenName p = false)) :=
  collect_files_spec ⟨[(["in", "a.txt"], ⟨[1], 2, false, none, false⟩)], []⟩ ["in"] false

/-- C6: the fingerprinter is chunk invariant — folding the streaming hash
over ANY chunking of a byte sequence yields exactly the digest `sha256`
computes for a file with that content, so two files with identical bytes
always fingerprint identically regardless of size or read boundaries. -/
theorem fingerprint_chunk_invariant (chunks : List (List Nat)) (content : List Nat)
    (h : chunks.flatten = content) : sha256stream chunks = sha256bytes content := by
  rw [sha256stream_eq, h]
  unfold sha256bytes
  rw [sha256stream_eq, chunksOf_flatten CHUNK (by decide) content]

set_option maxRecDepth 2000000 in
/-- Witness for C6: two different chunkings of the same two bytes. -/
theorem fingerprint_chunk_invariant_w :
    ([[104], [105]] : List (List Nat)).flatten = [104, 105] ∧
    sha256stream [[104], [105]] = sha256bytes [104, 105] :=
  ⟨by decide, fingerprint_chunk_invariant [[104], [105]] [104, 105] (by decide)⟩

/-- C8: a dry run mutates nothing — the filesystem after `organize` is the
input filesystem (no directory, copy, move, delete, and the clean-output
deletion is suppressed) — a second consecutive dry run therefore returns
the identical report, and the run still records one outcome per scanned
file. -/
theorem dry_run_no_mutation (cfg : Config) (fs0 : FS) (h : cfg.dry_run = true) :
    (organize cfg fs0).2 = fs0 ∧
    organize cfg (organize cfg fs0).2 = organize cfg fs0 ∧
    (organize cfg fs0).1.files.length + (organize cfg fs0).1.errors.length =
      (organize cfg fs0).1.totals.scanned_files := by
  refine ⟨organize_fs_dry cfg fs0 h, by rw [organize_fs_dry cfg fs0 h], ?_⟩
  have hc := runState_counts cfg fs0
  have hf := runState_fiveSum cfg fs0
  have h1 : (organize cfg fs0).1.files = (runState cfg fs0).actions := rfl
  have h2 : (organize cfg fs0).1.errors = (runState cfg fs0).errors := rfl
  have h3 : (organize cfg fs0).1.totals = (runState cfg fs0).totals := rfl
  rw [h1, h2, h3]
  rcases hc with ⟨hca, hcb⟩
  unfold fiveSum at hcb hf
  omega

set_option maxRecDepth 2000000 in
/-- Witness for C8: a concrete dry run over one file — clean-output set,
move mode set — still leaves the filesystem untouched. -/
theorem dry_run_no_mutation_w :
    (organize ⟨["in"], ["out"], "type", false, "off", true, true, true⟩
        ⟨[(["in", "a.txt"], ⟨[1], 4, false, none, false⟩),
          (["out", "txt", "a.txt"], ⟨[2], 5, false, none, false⟩)], []⟩).2 =
      ⟨[(["in", "a.txt"], ⟨[1], 4, false, none, false⟩),
        (["out", "txt", "a.txt"], ⟨[2], 5, false, none, false⟩)], []⟩ ∧
    organize ⟨["in"], ["out"], "type", false, "off", true, true, true⟩
        (organize ⟨["in"], ["out"], "type", false, "off", true, true, true⟩
          ⟨[(["in", "a.txt"], ⟨[1], 4, false, none, false⟩),
            (["out", "txt", "a.txt"], ⟨[2], 5, false, none, false⟩)], []⟩).2 =
      organize ⟨["in"], ["out"], "type", false, "off", true, true, true⟩
        ⟨[(["in", "a.txt"], ⟨[1], 4, false, none, false⟩),
          (["out", "txt", "a.txt"], ⟨[2], 5, false, none, false⟩)], []⟩ ∧
    (organize ⟨["in"], ["out"], "type", false, "off", true, true, true⟩
        ⟨[(["in", "a.txt"], ⟨[1], 4, false, none, false⟩),
          (["out", "txt", "a.txt"], ⟨[2], 5, false, none, false⟩)], []⟩).1.files.length +
      (organize ⟨["in"], ["out"], "type", false, "off", true, true, true⟩
        ⟨[(["in", "a.txt"], ⟨[1], 4, false, none, false⟩),
          (["out", "txt", "a.txt"], ⟨[2], 5, false, none, false⟩)], []⟩).1.errors.length =
      (organize ⟨["in"], ["out"], "type", false, "off", true, true, true⟩
        ⟨[(["in", "a.txt"], ⟨[1], 4, false, none, false⟩),
          (["out", "txt", "a.txt"], ⟨[2], 5, false, none, false⟩)], []⟩).1.totals.scanned_files :=
  dry_run_no_mutation _ _ (by decide)

/-- C10: the seen-hash index is written as soon as hashing succeeds, before
any filesystem action for the file is attempted — whatever the action then
does, the new state's index is the old one extended with that file — and a
later file with an already-seen hash is, under policy `delete`, skipped
with a reason referencing the registered first occurrence, even if that
first occurrence's own action failed. -/
theorem seen_registered_before_action :
    (∀ (cfg : Config) (st : OrgState) (src : Path) (fh : String),
      sha256 st.fs src = .ok fh → st.seen.lookup fh = none →
      (processFile cfg st src).seen = st.seen ++ [(fh, src)]) ∧
    (∀ (cfg : Config) (st : OrgState) (src f : Path) (fh : String),
      sha256 st.fs src = .ok fh → st.seen.lookup fh = some f → cfg.dedupe = "delete" →
      processFile cfg st src = recSkip st src f fh) :=
  ⟨fun cfg st src fh hs hl => processFile_seen_register cfg st src fh hs hl,
   fun cfg st src f fh hs hl hd => processFile_dup_skip cfg st src f fh hs hl hd⟩

set_option maxRecDepth 2000000 in
/-- Witness for C10: `b.txt` whose hash is already registered to `a.txt`
(a file that was never placed in the output) is skipped with a reason
referencing `a.txt`. -/
theorem seen_registered_before_action_w :
    processFile ⟨["in"], ["out"], "type", false, "delete", false, false, false⟩
      ⟨⟨[(["in", "b.txt"], ⟨[1], 0, false, none, false⟩)], []⟩,
       [(sha256bytes [1], ["in", "a.txt"])], [], [], [], ⟨1, 0, 0, 0, 0, 0⟩⟩
      ["in", "b.txt"] =
    recSkip ⟨⟨[(["in", "b.txt"], ⟨[1], 0, false, none, false⟩)], []⟩,
       [(sha256bytes [1], ["in", "a.txt"])], [], [], [], ⟨1, 0, 0, 0, 0, 0⟩⟩
      ["in", "b.txt"] ["in", "a.txt"] (sha256bytes [1]) :=
  seen_registered_before_action.2 _ _ _ _ _ (by decide) (by decide) rfl

set_option maxRecDepth 2000000 in
/-- Witness for C7: a concrete duplicate under policy `move` with move
mode off — the copy lands in `Duplicates` with the source's content and
modification time, and the source file survives. -/
theorem duplicate_copy_semantics_w :
    ((⟨[1], 7, false, none, false⟩ : FileData).copyFault = none →
      (processFile ⟨["in"], ["out"], "type", false, "move", false, false, false⟩
        ⟨⟨[(["in", "b.txt"], ⟨[1], 7, false, none, false⟩)], []⟩,
         [(sha256bytes [1], ["in", "a.txt"])], [], [], [], ⟨1, 0, 0, 0, 0, 0⟩⟩
        ["in", "b.txt"]).fs.lookupFile ["out", "Duplicates", "b.txt"] =
        some ⟨[1], 7, false, none, false⟩) ∧
    ((⟨[1], 7, false, none, false⟩ : FileData).copyFault = none →
      (⟨["in"], ["out"], "type", false, "move", false, false, false⟩ : Config).move = false →
      (processFile ⟨["in"], ["out"], "type", false, "move", false, false, false⟩
        ⟨⟨[(["in", "b.txt"], ⟨[1], 7, false, none, false⟩)], []⟩,
         [(sha256bytes [1], ["in", "a.txt"])], [], [], [], ⟨1, 0, 0, 0, 0, 0⟩⟩
        ["in", "b.txt"]).fs.lookupFile ["in", "b.txt"] = some ⟨[1], 7, false, none, false⟩) ∧
    ((⟨[1], 7, false, none, false⟩ : FileData).copyFault = none →
      (⟨["in"], ["out"], "type", false, "move", false, false, false⟩ : Config).move = true →
      (processFile ⟨["in"], ["out"], "type", false, "move", false, false, false⟩
        ⟨⟨[(["in", "b.txt"], ⟨[1], 7, false, none, false⟩)], []⟩,
         [(sha256bytes [1], ["in", "a.txt"])], [], [], [], ⟨1, 0, 0, 0, 0, 0⟩⟩
        ["in", "b.txt"]).fs.lookupFile ["in", "b.txt"] = none) ∧
    (∀ fault, (⟨[1], 7, false, none, false⟩ : FileData).copyFault = some fault →
      (processFile ⟨["in"], ["out"], "type", false, "move", false, false, false⟩
        ⟨⟨[(["in", "b.txt"], ⟨[1], 7, false, none, false⟩)], []⟩,
         [(sha256bytes [1], ["in", "a.txt"])], [], [], [], ⟨1, 0, 0, 0, 0, 0⟩⟩
        ["in", "b.txt"]).fs.lookupFile ["in", "b.txt"] = some ⟨[1], 7, false, none, false⟩) :=
  duplicate_copy_semantics
    ⟨["in"], ["out"], "type", false, "move", false, false, false⟩
    ⟨⟨[(["in", "b.txt"], ⟨[1], 7, false, none, false⟩)], []⟩,
     [(sha256bytes [1], ["in", "a.txt"])], [], [], [], ⟨1, 0, 0, 0, 0, 0⟩⟩
    ["in", "b.txt"] ⟨[1], 7, false, none, false⟩ (sha256bytes [1]) ["in", "a.txt"]
    ["out", "Duplicates", "b.txt"]
    rfl rfl (by decide) (by decide) (by decide) (by decide) (by decide)

end Organizer
